import Mathlib

set_option maxHeartbeats 1000000
set_option maxRecDepth 2000

namespace MyScripts

/-!  Shallow embedding of the mesh/statistics utilities of the repository.

Coordinates and field values are rationals standing in for the scripts'
double-precision degrees/metres; only order comparisons, `+`, `-`, `*`,
`/`, `min`/`max` and (via squared quantities) `sqrt` comparisons occur in
the embedded code, all of which are exact on `ℚ`.  -/

/-! ## Regional mesh extractor
    `extract_regional_mesh` from `2D-Global-Points-CWL/plot_cwl_diff_snapshot.py`
    (the identical function also appears in `animate_cwl_diff.py`).
    Node coordinates are parallel lists `x`, `y`; `elements` holds one
    triple of (already 0-based, Python `int`) vertex indices per triangle. -/

structure Mesh where
  x : List ℚ
  y : List ℚ
  elements : List (Int × Int × Int)
deriving Repr

structure BBox where
  lonMin : ℚ
  lonMax : ℚ
  latMin : ℚ
  latMax : ℚ
deriving Repr

/-- Code: `node_mask` for node `i`: the node lies inside the buffered bounding box.
`((x >= lon_min - buffer) & (x <= lon_max + buffer) & (y >= lat_min - buffer) & (y <= lat_max + buffer))` -/
def nodeMask (m : Mesh) (b : BBox) (buffer : ℚ) (i : Nat) : Bool :=
  decide (b.lonMin - buffer ≤ m.x.getD i 0) && decide (m.x.getD i 0 ≤ b.lonMax + buffer) &&
  decide (b.latMin - buffer ≤ m.y.getD i 0) && decide (m.y.getD i 0 ≤ b.latMax + buffer)

/-- Code: `regional_indices = np.where(node_mask)[0]`: the indices of the masked
nodes, in increasing order. -/
def regionalIndices (m : Mesh) (b : BBox) (buffer : ℚ) : List Nat :=
  (List.range m.x.length).filter (nodeMask m b buffer)

/-- Code: `elem[k] in index_set`: membership of an element vertex in the set of
regional node indices. -/
def inIndexSet (R : List Nat) (v : Int) : Bool :=
  R.any (fun i : Nat => (i : Int) == v)

/-- Code: `index_map[old]`: position of `old` in `regional_indices` — the value the
`enumerate` dictionary assigns to a member of `regional_indices`. -/
def indexMap (R : List Nat) (v : Int) : Nat :=
  R.findIdx (fun i : Nat => (i : Int) == v)

/-- The filter `elem[0] in index_set and elem[1] in index_set and elem[2] in index_set`. -/
def keepTriangle (R : List Nat) (e : Int × Int × Int) : Bool :=
  inIndexSet R e.1 && inIndexSet R e.2.1 && inIndexSet R e.2.2

/-- Code: `new_tri = [index_map[elem[0]], index_map[elem[1]], index_map[elem[2]]]`. -/
def remapTriangle (R : List Nat) (e : Int × Int × Int) : Nat × Nat × Nat :=
  (indexMap R e.1, indexMap R e.2.1, indexMap R e.2.2)

/-- Result record of `extract_regional_mesh`: `x_reg, y_reg, elements_reg,
regional_indices`. -/
structure RegionalMesh where
  xReg : List ℚ
  yReg : List ℚ
  elementsReg : List (Nat × Nat × Nat)
  regionalIdx : List Nat
deriving Repr, DecidableEq

/-- Code: `extract_regional_mesh(x, y, elements, ..., buffer=0.1)`.  Returns `none`
for the Python `(None, None, None, None)` empty-region result. -/
def extract_regional_mesh (m : Mesh) (b : BBox) (buffer : ℚ) : Option RegionalMesh :=
  let R := regionalIndices m b buffer
  let tris := (m.elements.filter (keepTriangle R)).map (remapTriangle R)
  if tris.isEmpty then none
  else some ⟨R.map (fun i => m.x.getD i 0), R.map (fun i => m.y.getD i 0), tris, R⟩

theorem inIndexSet_iff (R : List Nat) (v : Int) :
    inIndexSet R v = true ↔ ∃ i ∈ R, (i : Int) = v := by
  simp [inIndexSet]

theorem indexMap_lt_length {R : List Nat} {v : Int} (h : inIndexSet R v = true) :
    indexMap R v < R.length := by
  rw [inIndexSet_iff] at h
  exact List.findIdx_lt_length_of_exists (by simpa using h)

theorem indexMap_getD {R : List Nat} {v : Int} (h : inIndexSet R v = true) :
    ((R.getD (indexMap R v) 0 : Nat) : Int) = v := by
  have hlt := indexMap_lt_length h
  rw [List.getD_eq_getElem _ _ hlt]
  have hp := @List.findIdx_getElem _ (fun i : Nat => (i : Int) == v) R hlt
  simpa using hp

theorem keepTriangle_iff (R : List Nat) (e : Int × Int × Int) :
    keepTriangle R e = true ↔
      inIndexSet R e.1 = true ∧ inIndexSet R e.2.1 = true ∧ inIndexSet R e.2.2 = true := by
  simp [keepTriangle, Bool.and_eq_true, and_assoc]

/-- Characterisation of a non-empty `extract_regional_mesh` result. -/
theorem extract_regional_mesh_eq_some {m : Mesh} {b : BBox} {buffer : ℚ} {rm : RegionalMesh} :
    extract_regional_mesh m b buffer = some rm ↔
      (m.elements.filter (keepTriangle (regionalIndices m b buffer))).map
          (remapTriangle (regionalIndices m b buffer)) ≠ [] ∧
      rm = ⟨(regionalIndices m b buffer).map (fun i => m.x.getD i 0),
            (regionalIndices m b buffer).map (fun i => m.y.getD i 0),
            (m.elements.filter (keepTriangle (regionalIndices m b buffer))).map
              (remapTriangle (regionalIndices m b buffer)),
            regionalIndices m b buffer⟩ := by
  simp only [extract_regional_mesh]
  by_cases hemp : ((m.elements.filter (keepTriangle (regionalIndices m b buffer))).map
      (remapTriangle (regionalIndices m b buffer))).isEmpty
  · simp [hemp, List.isEmpty_iff.mp hemp]
  · simp only [hemp, Bool.false_eq_true, if_false, Option.some.injEq]
    constructor
    · intro hsome
      exact ⟨fun hnil => hemp (by simp [hnil]), hsome.symm⟩
    · intro ⟨_, hrm⟩
      exact hrm.symm

/-- C1. When the regional mesh extractor returns a non-empty result, every
vertex index in the returned triangle list is a valid index into the returned
coordinate subset arrays (each index, being a natural number, is at least `0`,
and is strictly less than the number of returned nodes). -/
theorem extract_regional_mesh_indices_valid
    (m : Mesh) (b : BBox) (buffer : ℚ) (rm : RegionalMesh)
    (h : extract_regional_mesh m b buffer = some rm) :
    ∀ t ∈ rm.elementsReg,
      t.1 < rm.xReg.length ∧ t.2.1 < rm.xReg.length ∧ t.2.2 < rm.xReg.length ∧
      t.1 < rm.yReg.length ∧ t.2.1 < rm.yReg.length ∧ t.2.2 < rm.yReg.length := by
  obtain ⟨-, rfl⟩ := extract_regional_mesh_eq_some.mp h
  intro t ht
  simp only [List.mem_map, List.mem_filter] at ht
  obtain ⟨e, ⟨-, hkeep⟩, rfl⟩ := ht
  obtain ⟨h1, h2, h3⟩ := (keepTriangle_iff _ e).mp hkeep
  simp only [remapTriangle, List.length_map]
  exact ⟨indexMap_lt_length h1, indexMap_lt_length h2, indexMap_lt_length h3,
    indexMap_lt_length h1, indexMap_lt_length h2, indexMap_lt_length h3⟩

/-- A concrete 10-node mesh: nodes 2, 3, 5, 7 sit at the unit-square corners,
all other nodes far away; 8 triangles of which exactly 2 have all vertices on
the unit square. -/
def meshA : Mesh :=
  ⟨[50, 60, 0, 1, 70, 0, 80, 1, 90, 95],
   [50, 60, 0, 0, 70, 1, 80, 1, 90, 95],
   [(0, 1, 4), (2, 3, 5), (1, 4, 6), (3, 7, 5), (4, 6, 8), (6, 8, 9), (0, 2, 3), (8, 9, 0)]⟩

/-- Unit-square bounding box. -/
def boxA : BBox := ⟨0, 1, 0, 1⟩

/-- The regional mesh extracted from `meshA` over `boxA`. -/
def rmA : RegionalMesh := ⟨[0, 1, 0, 1], [0, 0, 1, 1], [(0, 1, 2), (1, 3, 2)], [2, 3, 5, 7]⟩

theorem extract_regional_mesh_indices_valid_witness :
    extract_regional_mesh meshA boxA (1/10) = some rmA ∧
      ∀ t ∈ rmA.elementsReg,
        t.1 < rmA.xReg.length ∧ t.2.1 < rmA.xReg.length ∧ t.2.2 < rmA.xReg.length ∧
        t.1 < rmA.yReg.length ∧ t.2.1 < rmA.yReg.length ∧ t.2.2 < rmA.yReg.length :=
  ⟨by with_unfolding_all rfl,
   extract_regional_mesh_indices_valid meshA boxA (1/10) rmA (by with_unfolding_all rfl)⟩

theorem inIndexSet_mem_map {R : List Nat} {v : Int} :
    inIndexSet R v = true ↔ v ∈ R.map Int.ofNat := by
  simp [inIndexSet_iff, List.mem_map, Int.ofNat_eq_coe]

theorem inIndexSet_eq_decide (R : List Nat) (v : Int) :
    inIndexSet R v = decide (v ∈ R.map Int.ofNat) := by
  cases h : inIndexSet R v with
  | true => exact (decide_eq_true (inIndexSet_mem_map.mp h)).symm
  | false =>
    refine (decide_eq_false fun hm => ?_).symm
    rw [← inIndexSet_mem_map, h] at hm
    exact Bool.false_ne_true hm

/-- C2. If no triangle of the input mesh has all three vertex indices among
the nodes inside the buffered bounding box — in particular whenever the
buffered box encloses zero nodes — `extract_regional_mesh` returns the
designated empty result `none` (the Python `(None, None, None, None)`); being
a total function, it raises nothing. -/
theorem extract_regional_mesh_empty_region (m : Mesh) (b : BBox) (buffer : ℚ) :
    ((∀ e ∈ m.elements,
        ¬(e.1 ∈ (regionalIndices m b buffer).map Int.ofNat ∧
          e.2.1 ∈ (regionalIndices m b buffer).map Int.ofNat ∧
          e.2.2 ∈ (regionalIndices m b buffer).map Int.ofNat)) →
      extract_regional_mesh m b buffer = none) ∧
    ((∀ i < m.x.length, nodeMask m b buffer i = false) →
      extract_regional_mesh m b buffer = none) := by
  have key : ∀ _ : ∀ e ∈ m.elements, keepTriangle (regionalIndices m b buffer) e = false,
      extract_regional_mesh m b buffer = none := by
    intro hK
    simp only [extract_regional_mesh]
    rw [List.filter_eq_nil_iff.mpr (fun e he => by simp [hK e he])]
    simp
  constructor
  · intro h
    refine key (fun e he => ?_)
    cases hk : keepTriangle (regionalIndices m b buffer) e with
    | false => rfl
    | true =>
      obtain ⟨h1, h2, h3⟩ := (keepTriangle_iff _ e).mp hk
      exact absurd ⟨inIndexSet_mem_map.mp h1, inIndexSet_mem_map.mp h2,
        inIndexSet_mem_map.mp h3⟩ (h e he)
  · intro h
    have hR : regionalIndices m b buffer = [] := by
      refine List.filter_eq_nil_iff.mpr (fun i hi => ?_)
      simp [h i (List.mem_range.mp hi)]
    refine key (fun e _ => ?_)
    rw [hR]
    rfl

/-- A bounding box far away from every node of `meshA`. -/
def boxFar : BBox := ⟨200, 201, 200, 201⟩

theorem extract_regional_mesh_empty_region_witness :
    (∀ i < meshA.x.length, nodeMask meshA boxFar (1/10) i = false) ∧
      extract_regional_mesh meshA boxFar (1/10) = none :=
  ⟨by with_unfolding_all decide,
   (extract_regional_mesh_empty_region meshA boxFar (1/10)).2 (by with_unfolding_all decide)⟩

/-- C3. The extractor keeps an input triangle iff all three of its vertex
indices lie among the nodes inside the buffered box, rewrites each kept
triangle through the original-to-subset renumbering (so each rewritten vertex
index points back, through `regional_indices`, at the original node), and
preserves the relative input order of kept triangles (the output is a
`filter` followed by a `map`).  In particular, for the 10-node mesh `meshA`
with 8 triangles and a box covering exactly 4 nodes forming 2 triangles, the
extractor returns exactly those 2 triangles re-indexed to use node indices
0 through 3. -/
theorem extract_regional_mesh_filter_and_remap :
    (∀ (m : Mesh) (b : BBox) (buffer : ℚ) (rm : RegionalMesh),
      extract_regional_mesh m b buffer = some rm →
      rm.elementsReg =
        (m.elements.filter (fun e =>
            decide (e.1 ∈ (regionalIndices m b buffer).map Int.ofNat) &&
            decide (e.2.1 ∈ (regionalIndices m b buffer).map Int.ofNat) &&
            decide (e.2.2 ∈ (regionalIndices m b buffer).map Int.ofNat))).map
          (remapTriangle (regionalIndices m b buffer)) ∧
      (∀ e ∈ m.elements, keepTriangle (regionalIndices m b buffer) e = true →
        (((regionalIndices m b buffer).getD
            (indexMap (regionalIndices m b buffer) e.1) 0 : Nat) : Int) = e.1 ∧
        (((regionalIndices m b buffer).getD
            (indexMap (regionalIndices m b buffer) e.2.1) 0 : Nat) : Int) = e.2.1 ∧
        (((regionalIndices m b buffer).getD
            (indexMap (regionalIndices m b buffer) e.2.2) 0 : Nat) : Int) = e.2.2)) ∧
    extract_regional_mesh meshA boxA (1/10) = some rmA ∧
    meshA.x.length = 10 ∧ meshA.elements.length = 8 ∧
    (regionalIndices meshA boxA (1/10)).length = 4 ∧
    rmA.elementsReg = [(0, 1, 2), (1, 3, 2)] := by
  refine ⟨?_, by with_unfolding_all rfl, rfl, rfl, by with_unfolding_all rfl, rfl⟩
  intro m b buffer rm h
  obtain ⟨-, rfl⟩ := extract_regional_mesh_eq_some.mp h
  constructor
  · refine congrArg _ (List.filter_congr (fun e _ => ?_))
    simp only [keepTriangle, inIndexSet_eq_decide]
  · intro e _ hk
    obtain ⟨h1, h2, h3⟩ := (keepTriangle_iff _ e).mp hk
    exact ⟨indexMap_getD h1, indexMap_getD h2, indexMap_getD h3⟩

theorem extract_regional_mesh_filter_and_remap_witness :
    extract_regional_mesh meshA boxA (1/10) = some rmA ∧
      rmA.elementsReg =
        (meshA.elements.filter (fun e =>
            decide (e.1 ∈ (regionalIndices meshA boxA (1/10)).map Int.ofNat) &&
            decide (e.2.1 ∈ (regionalIndices meshA boxA (1/10)).map Int.ofNat) &&
            decide (e.2.2 ∈ (regionalIndices meshA boxA (1/10)).map Int.ofNat))).map
          (remapTriangle (regionalIndices meshA boxA (1/10))) :=
  ⟨by with_unfolding_all rfl,
   ((extract_regional_mesh_filter_and_remap.1 meshA boxA (1/10) rmA
      (by with_unfolding_all rfl)).1)⟩

theorem mem_inIndexSet {R : List Nat} {i : Nat} (hi : i ∈ R) :
    inIndexSet R (i : Int) = true :=
  inIndexSet_iff R (i : Int) |>.mpr ⟨i, hi, rfl⟩

/-- In a strictly increasing index list, the `index_map` renumbering is
strictly monotone. -/
theorem indexMap_strictMono {R : List Nat} (hR : List.Pairwise (· < ·) R)
    {i j : Nat} (hi : i ∈ R) (hj : j ∈ R) (hij : i < j) :
    indexMap R (i : Int) < indexMap R (j : Int) := by
  have hpi := indexMap_lt_length (mem_inIndexSet hi)
  have hpj := indexMap_lt_length (mem_inIndexSet hj)
  have hgiD : R.getD (indexMap R (i : Int)) 0 = i := by
    have := indexMap_getD (mem_inIndexSet hi); exact_mod_cast this
  have hgjD : R.getD (indexMap R (j : Int)) 0 = j := by
    have := indexMap_getD (mem_inIndexSet hj); exact_mod_cast this
  have hgi := hgiD
  have hgj := hgjD
  rw [List.getD_eq_getElem _ _ hpi] at hgi
  rw [List.getD_eq_getElem _ _ hpj] at hgj
  by_contra hle
  rcases Nat.lt_or_ge (indexMap R (j : Int)) (indexMap R (i : Int)) with hlt | hge
  · have := (List.pairwise_iff_getElem.mp hR) _ _ hpj hpi hlt
    rw [hgi, hgj] at this
    exact Nat.lt_asymm hij this
  · have heq : indexMap R (i : Int) = indexMap R (j : Int) :=
      Nat.le_antisymm hge (Nat.le_of_not_lt hle)
    rw [heq, hgjD] at hgiD
    exact Nat.ne_of_lt hij hgiD.symm

/-- A mesh whose box-covered nodes 0–3 include node 3, which is a vertex of
no triangle. -/
def meshB : Mesh := ⟨[0, 1, 0, 1, 50], [0, 0, 1, 1, 50], [(0, 1, 2)]⟩

/-- The regional mesh extracted from `meshB` over `boxA`. -/
def rmB : RegionalMesh := ⟨[0, 1, 0, 1], [0, 0, 1, 1], [(0, 1, 2)], [0, 1, 2, 3]⟩

/-- C10. A non-empty extractor result returns exactly the nodes lying
inside the buffered bounding box, in strictly increasing original-node-index
order (so the original-to-subset renumbering is strictly monotone), the
coordinate subsets are indexed by exactly that node list — and the node
subset may include nodes that are a vertex of no returned triangle (witnessed
by `meshB`, where subset-local node 3 occurs in no triangle). -/
theorem extract_regional_mesh_node_subset_exact :
    (∀ (m : Mesh) (b : BBox) (buffer : ℚ) (rm : RegionalMesh),
      extract_regional_mesh m b buffer = some rm →
      (∀ i : Nat, i ∈ rm.regionalIdx ↔ i < m.x.length ∧ nodeMask m b buffer i = true) ∧
      List.Sorted (· < ·) rm.regionalIdx ∧
      rm.xReg = rm.regionalIdx.map (fun i => m.x.getD i 0) ∧
      rm.yReg = rm.regionalIdx.map (fun i => m.y.getD i 0) ∧
      (∀ i j : Nat, i ∈ rm.regionalIdx → j ∈ rm.regionalIdx → i < j →
        indexMap rm.regionalIdx (i : Int) < indexMap rm.regionalIdx (j : Int))) ∧
    extract_regional_mesh meshB boxA (1/10) = some rmB ∧
    rmB.regionalIdx = [0, 1, 2, 3] ∧
    (∀ t ∈ rmB.elementsReg, t.1 ≠ 3 ∧ t.2.1 ≠ 3 ∧ t.2.2 ≠ 3) := by
  refine ⟨?_, by with_unfolding_all rfl, rfl, by decide⟩
  intro m b buffer rm h
  obtain ⟨-, rfl⟩ := extract_regional_mesh_eq_some.mp h
  have hsort : List.Sorted (· < ·) (regionalIndices m b buffer) :=
    (List.pairwise_lt_range m.x.length).filter _
  refine ⟨?_, hsort, rfl, rfl, fun i j hi hj hij => indexMap_strictMono hsort hi hj hij⟩
  intro i
  simp [regionalIndices, List.mem_filter, List.mem_range]

theorem extract_regional_mesh_node_subset_exact_witness :
    extract_regional_mesh meshB boxA (1/10) = some rmB ∧
      (∀ i : Nat, i ∈ rmB.regionalIdx ↔
        i < meshB.x.length ∧ nodeMask meshB boxA (1/10) i = true) ∧
      List.Sorted (· < ·) rmB.regionalIdx ∧
      rmB.xReg = rmB.regionalIdx.map (fun i => meshB.x.getD i 0) ∧
      rmB.yReg = rmB.regionalIdx.map (fun i => meshB.y.getD i 0) ∧
      (∀ i j : Nat, i ∈ rmB.regionalIdx → j ∈ rmB.regionalIdx → i < j →
        indexMap rmB.regionalIdx (i : Int) < indexMap rmB.regionalIdx (j : Int)) :=
  ⟨by with_unfolding_all rfl,
   extract_regional_mesh_node_subset_exact.1 meshB boxA (1/10) rmB
     (by with_unfolding_all rfl)⟩

/-! ## Large-domain triangle masking
    From `create_enhanced_plot` in `2D-Global-Points-CWL/plot_enhanced_style.py`.
    `data` holds the per-node regional difference values, `none` standing for
    NaN.  The script compares square roots of sums of squares against a
    threshold; `sqrtGtB s t` encodes `√s > t` (for `s ≥ 0`) exactly, without
    leaving `ℚ`. -/

/-- Code: `√s > t` for `s ≥ 0`: true iff `t < 0` or `t² < s`. -/
def sqrtGtB (s t : ℚ) : Bool := decide (t < 0) || decide (t ^ 2 < s)

/-- Code: `mask_bad = np.isnan(data) | (np.abs(data) > 1.5)` at node `i`. -/
def vertexBad (data : List (Option ℚ)) (i : Nat) : Bool :=
  match data.getD i none with
  | none => true
  | some v => decide (3/2 < |v|)

/-- Code: `tri_has_bad = mask_bad[triang.triangles].any(axis=1)`. -/
def triHasBadValue (data : List (Option ℚ)) (t : Nat × Nat × Nat) : Bool :=
  vertexBad data t.1 || vertexBad data t.2.1 || vertexBad data t.2.2

/-- Squared length of `edge1` (vertices 0–1). -/
def edge1Sq (x y : List ℚ) (t : Nat × Nat × Nat) : ℚ :=
  (x.getD t.2.1 0 - x.getD t.1 0) ^ 2 + (y.getD t.2.1 0 - y.getD t.1 0) ^ 2

/-- Squared length of `edge2` (vertices 1–2). -/
def edge2Sq (x y : List ℚ) (t : Nat × Nat × Nat) : ℚ :=
  (x.getD t.2.2 0 - x.getD t.2.1 0) ^ 2 + (y.getD t.2.2 0 - y.getD t.2.1 0) ^ 2

/-- Squared length of `edge3` (vertices 2–0). -/
def edge3Sq (x y : List ℚ) (t : Nat × Nat × Nat) : ℚ :=
  (x.getD t.1 0 - x.getD t.2.2 0) ^ 2 + (y.getD t.1 0 - y.getD t.2.2 0) ^ 2

/-- Code: `max_edge = np.maximum(np.maximum(edge1, edge2), edge3)`, squared.
(`max` commutes with `√`, so the square of the longest edge is the max of
the squared edge lengths.) -/
def maxEdgeSq (x y : List ℚ) (t : Nat × Nat × Nat) : ℚ :=
  max (max (edge1Sq x y t) (edge2Sq x y t)) (edge3Sq x y t)

/-- Code: `edge_threshold = min(5.0, region_width / 30)`. -/
def edge_threshold (regionWidth : ℚ) : ℚ := min 5 (regionWidth / 30)

/-- Code: `tri_too_large = max_edge > edge_threshold`. -/
def tri_too_large (x y : List ℚ) (regionWidth : ℚ) (t : Nat × Nat × Nat) : Bool :=
  sqrtGtB (maxEdgeSq x y t) (edge_threshold regionWidth)

/-- Code: `tri_max_lon = np.max(x_tri, axis=1)`. -/
def triMaxLon (x : List ℚ) (t : Nat × Nat × Nat) : ℚ :=
  max (max (x.getD t.1 0) (x.getD t.2.1 0)) (x.getD t.2.2 0)

/-- Code: `tri_min_lon = np.min(x_tri, axis=1)`. -/
def triMinLon (x : List ℚ) (t : Nat × Nat × Nat) : ℚ :=
  min (min (x.getD t.1 0) (x.getD t.2.1 0)) (x.getD t.2.2 0)

/-- Code: `lon_span = np.max(x_tri, axis=1) - np.min(x_tri, axis=1)`. -/
def lonSpan (x : List ℚ) (t : Nat × Nat × Nat) : ℚ := triMaxLon x t - triMinLon x t

/-- Code: `tri_crosses_dateline = lon_span > 180`. -/
def tri_crosses_dateline (x : List ℚ) (t : Nat × Nat × Nat) : Bool :=
  decide (180 < lonSpan x t)

/-- Code: `tri_dateline_artifact = (near_east_dateline | near_west_dateline) & (lon_span > 20)`. -/
def tri_dateline_artifact (x : List ℚ) (t : Nat × Nat × Nat) : Bool :=
  (decide (170 < triMaxLon x t) || decide (triMinLon x t < -170)) &&
    decide (20 < lonSpan x t)

/-- The final per-triangle suppression mask handed to `triang.set_mask`: the
extra geometric conditions are applied only on large domains
(`region_width > 50 or region_height > 50`). -/
def enhancedTriMask (x y : List ℚ) (data : List (Option ℚ)) (b : BBox)
    (t : Nat × Nat × Nat) : Bool :=
  if 50 < b.lonMax - b.lonMin ∨ 50 < b.latMax - b.latMin then
    triHasBadValue data t || tri_too_large x y (b.lonMax - b.lonMin) t ||
      tri_crosses_dateline x t || tri_dateline_artifact x t
  else triHasBadValue data t

/-- C4. On a large domain (width or height above 50°), a triangle is
suppressed exactly when the missing/outlier-value mask flags it, ORed with
the three-way disjunction: (i) some edge length exceeds
`min(5°, width/30)` (equivalently, the maximum edge length does), or
(ii) its longitude span exceeds 180°, or (iii) some vertex lies within 10° of
+180 or −180 longitude and the longitude span exceeds 20°. -/
theorem enhancedTriMask_iff (x y : List ℚ) (data : List (Option ℚ)) (b : BBox)
    (t : Nat × Nat × Nat) (h : 50 < b.lonMax - b.lonMin ∨ 50 < b.latMax - b.latMin) :
    enhancedTriMask x y data b t = true ↔
      (triHasBadValue data t = true ∨
       (sqrtGtB (edge1Sq x y t) (min 5 ((b.lonMax - b.lonMin) / 30)) = true ∨
        sqrtGtB (edge2Sq x y t) (min 5 ((b.lonMax - b.lonMin) / 30)) = true ∨
        sqrtGtB (edge3Sq x y t) (min 5 ((b.lonMax - b.lonMin) / 30)) = true) ∨
       180 < lonSpan x t ∨
       ((∃ v ∈ [x.getD t.1 0, x.getD t.2.1 0, x.getD t.2.2 0],
          170 < v ∨ v < -170) ∧ 20 < lonSpan x t)) := by
  simp only [enhancedTriMask, if_pos h]
  simp only [Bool.or_eq_true, Bool.and_eq_true, tri_too_large, sqrtGtB, maxEdgeSq,
    edge_threshold, tri_crosses_dateline, tri_dateline_artifact, triMaxLon, triMinLon,
    decide_eq_true_eq, lt_max_iff, min_lt_iff, List.exists_mem_cons_iff,
    List.not_mem_nil, false_and, exists_false, or_false]
  tauto

/-- A large box (width 60°) together with a triangle near the antimeridian. -/
def boxC4 : BBox := ⟨-30, 30, 0, 10⟩

/-- Longitudes of a concrete three-node regional mesh near the antimeridian. -/
def xC4 : List ℚ := [178, 179, -179]

/-- Latitudes of the concrete mesh. -/
def yC4 : List ℚ := [0, 1, 0]

/-- Difference values of the concrete mesh (no NaN, no outlier). -/
def dC4 : List (Option ℚ) := [some 0, some 0, some 0]

theorem enhancedTriMask_iff_witness :
    (50 < boxC4.lonMax - boxC4.lonMin ∨ 50 < boxC4.latMax - boxC4.latMin) ∧
      (enhancedTriMask xC4 yC4 dC4 boxC4 (0, 1, 2) = true ↔
        (triHasBadValue dC4 (0, 1, 2) = true ∨
         (sqrtGtB (edge1Sq xC4 yC4 (0, 1, 2))
            (min 5 ((boxC4.lonMax - boxC4.lonMin) / 30)) = true ∨
          sqrtGtB (edge2Sq xC4 yC4 (0, 1, 2))
            (min 5 ((boxC4.lonMax - boxC4.lonMin) / 30)) = true ∨
          sqrtGtB (edge3Sq xC4 yC4 (0, 1, 2))
            (min 5 ((boxC4.lonMax - boxC4.lonMin) / 30)) = true) ∨
         180 < lonSpan xC4 (0, 1, 2) ∨
         ((∃ v ∈ [xC4.getD 0 0, xC4.getD 1 0, xC4.getD 2 0],
            170 < v ∨ v < -170) ∧
          20 < lonSpan xC4 (0, 1, 2)))) :=
  ⟨by with_unfolding_all decide,
   enhancedTriMask_iff xC4 yC4 dC4 boxC4 (0, 1, 2) (by with_unfolding_all decide)⟩

/-! ## Field differencing and masked statistics
    From `compute_difference` and `plot_difference` in
    `Fort11_Comparisons/plot_difference.py`.  A masked entry is `none`;
    `np.ma.masked_equal` masks exactly the entries equal to the variable's
    `_FillValue` (when present), the arrays are truncated to their common
    length, and the statistics (`np.nanmin/np.nanmax/np.nanmean` of the
    masked difference, with the `global` region keeping every node) range
    over the valid entries. -/

/-- Code: `np.ma.masked_equal(data, fill)` at one entry. -/
def maskFill (fill : Option ℚ) (v : ℚ) : Option ℚ :=
  match fill with
  | none => some v
  | some f => if v = f then none else some v

/-- Code: `diff_data = data2 - data1` on the masked, common-length arrays. -/
def compute_difference (fill1 fill2 : Option ℚ) (data1 data2 : List ℚ) :
    List (Option ℚ) :=
  List.zipWith (fun a b =>
    match maskFill fill1 a, maskFill fill2 b with
    | some a2, some b2 => some (b2 - a2)
    | _, _ => none) data1 data2

/-- The valid (unmasked) entries of a masked array. -/
def validEntries (l : List (Option ℚ)) : List ℚ := l.filterMap id

/-- Maximum of a list of rationals (`none` on the empty list, where NumPy
would report NaN). -/
def listMax : List ℚ → Option ℚ
  | [] => none
  | a :: l => some (match listMax l with | none => a | some m => max a m)

/-- Minimum of a list of rationals. -/
def listMin : List ℚ → Option ℚ
  | [] => none
  | a :: l => some (match listMin l with | none => a | some m => min a m)

/-- Code: `np.nanmean` of a masked array: mean of the valid entries. -/
def diffMean (l : List (Option ℚ)) : Option ℚ :=
  if (validEntries l).length = 0 then none
  else some ((validEntries l).sum / (validEntries l).length)

/-- Code: `np.nanmax` of a masked array. -/
def diffMax (l : List (Option ℚ)) : Option ℚ := listMax (validEntries l)

/-- Code: `np.nanmin` of a masked array. -/
def diffMin (l : List (Option ℚ)) : Option ℚ := listMin (validEntries l)

theorem compute_difference_eq_map {f1 f2 : ℚ} :
    ∀ {d1 d2 : List ℚ}, f1 ∉ d1 → f2 ∉ d2 →
      compute_difference (some f1) (some f2) d1 d2 =
        (List.zipWith (fun a b => b - a) d1 d2).map some := by
  intro d1
  induction d1 with
  | nil => intro d2 _ _; simp [compute_difference]
  | cons a l ih =>
    intro d2 h1 h2
    cases d2 with
    | nil => simp [compute_difference]
    | cons b l2 =>
      simp only [List.mem_cons, not_or] at h1 h2
      have ha : maskFill (some f1) a = some a := by
        simp only [maskFill]
        exact if_neg (fun h => h1.1 h.symm)
      have hb : maskFill (some f2) b = some b := by
        simp only [maskFill]
        exact if_neg (fun h => h2.1 h.symm)
      simp only [compute_difference, List.zipWith_cons_cons, ha, hb, List.map_cons]
      exact congrArg _ (ih h1.2 h2.2)

theorem validEntries_map_some (l : List ℚ) : validEntries (l.map some) = l := by
  induction l with
  | nil => rfl
  | cons a l ih =>
    simp only [validEntries, List.map_cons, List.filterMap_cons, id_eq] at *
    rw [ih]

/-- C5. With fill values absent from the data (and every entry below the
bad-value magnitude threshold), the computed difference is exactly
`data2 - data1` elementwise, and the reported mean, max, and min equal the
direct computations on the plain difference list (on `ℚ`, "to floating
tolerance" is exact equality; the mean is stated for non-empty input, both
sides being NaN on empty input).  Concretely, `[1.0, -99999.0, 3.0]` and
`[1.5, 2.0, 3.5]` with fill `-99999.0` yield valid differences
`[0.5, 0.5]` (index 1 excluded) with mean `0.5`. -/
theorem compute_difference_spec :
    (∀ (f1 f2 : ℚ) (d1 d2 : List ℚ),
      d1.length = d2.length → d1 ≠ [] →
      f1 ∉ d1 → f2 ∉ d2 →
      (∀ v ∈ d1, |v| < 100) → (∀ v ∈ d2, |v| < 100) →
      compute_difference (some f1) (some f2) d1 d2 =
        (List.zipWith (fun a b => b - a) d1 d2).map some ∧
      diffMean (compute_difference (some f1) (some f2) d1 d2) =
        some ((List.zipWith (fun a b => b - a) d1 d2).sum /
              (List.zipWith (fun a b => b - a) d1 d2).length) ∧
      diffMax (compute_difference (some f1) (some f2) d1 d2) =
        listMax (List.zipWith (fun a b => b - a) d1 d2) ∧
      diffMin (compute_difference (some f1) (some f2) d1 d2) =
        listMin (List.zipWith (fun a b => b - a) d1 d2)) ∧
    validEntries (compute_difference (some (-99999)) (some (-99999))
        [1, -99999, 3] [3/2, 2, 7/2]) = [1/2, 1/2] ∧
    diffMean (compute_difference (some (-99999)) (some (-99999))
        [1, -99999, 3] [3/2, 2, 7/2]) = some (1/2) := by
  refine ⟨?_,
    by norm_num [compute_difference, maskFill, validEntries, List.filterMap_cons],
    by norm_num [diffMean, compute_difference, maskFill, validEntries, List.filterMap_cons]⟩
  intro f1 f2 d1 d2 hlen hne h1 h2 _ _
  have hmap := compute_difference_eq_map h1 h2
  have hzlen : (List.zipWith (fun a b => b - a) d1 d2).length = d1.length := by
    rw [List.length_zipWith, hlen, Nat.min_self]
  have hzne : (List.zipWith (fun a b => b - a) d1 d2).length ≠ 0 := by
    rw [hzlen]
    exact fun h => hne (List.length_eq_zero.mp h)
  refine ⟨hmap, ?_, ?_, ?_⟩
  · rw [hmap]
    simp only [diffMean, validEntries_map_some, if_neg hzne]
  · rw [hmap]
    simp only [diffMax, validEntries_map_some]
  · rw [hmap]
    simp only [diffMin, validEntries_map_some]

theorem compute_difference_spec_witness :
    ([(1 : ℚ), 2].length = [(3 : ℚ)/2, 3].length ∧ [(1 : ℚ), 2] ≠ [] ∧
      (-99999 : ℚ) ∉ [(1 : ℚ), 2] ∧ (-99999 : ℚ) ∉ [(3 : ℚ)/2, 3] ∧
      (∀ v ∈ [(1 : ℚ), 2], |v| < 100) ∧ (∀ v ∈ [(3 : ℚ)/2, 3], |v| < 100)) ∧
    (compute_difference (some (-99999)) (some (-99999)) [1, 2] [3/2, 3] =
        (List.zipWith (fun a b => b - a) [(1 : ℚ), 2] [(3 : ℚ)/2, 3]).map some ∧
      diffMean (compute_difference (some (-99999)) (some (-99999)) [1, 2] [3/2, 3]) =
        some ((List.zipWith (fun a b => b - a) [(1 : ℚ), 2] [(3 : ℚ)/2, 3]).sum /
              (List.zipWith (fun a b => b - a) [(1 : ℚ), 2] [(3 : ℚ)/2, 3]).length) ∧
      diffMax (compute_difference (some (-99999)) (some (-99999)) [1, 2] [3/2, 3]) =
        listMax (List.zipWith (fun a b => b - a) [(1 : ℚ), 2] [(3 : ℚ)/2, 3]) ∧
      diffMin (compute_difference (some (-99999)) (some (-99999)) [1, 2] [3/2, 3]) =
        listMin (List.zipWith (fun a b => b - a) [(1 : ℚ), 2] [(3 : ℚ)/2, 3])) :=
  ⟨⟨rfl, by simp, by with_unfolding_all decide, by with_unfolding_all decide,
    by with_unfolding_all decide, by with_unfolding_all decide⟩,
   compute_difference_spec.1 (-99999) (-99999) [1, 2] [3/2, 3] rfl (by simp)
     (by with_unfolding_all decide) (by with_unfolding_all decide)
     (by with_unfolding_all decide) (by with_unfolding_all decide)⟩

/-! ## Station time-series comparison statistics
    From `secofs-ufs-diag/compare_station_timeseries.py`: the fill-value
    replacement `np.where(np.abs(elev) > 1e6, np.nan, elev)` in `main`,
    followed by the validity mask `~np.isnan(obs) & ~np.isnan(model)` of
    `compute_stats`. -/

/-- Code: `np.where(np.abs(elev) > 1e6, np.nan, elev)` at one entry. -/
def cleanElev (v : ℚ) : Option ℚ := if 1000000 < |v| then none else some v

/-- The fill-value replacement applied to a whole series. -/
def cleanSeries (l : List ℚ) : List (Option ℚ) := l.map cleanElev

/-- The index-aligned pairs surviving `valid = ~isnan(obs) & ~isnan(model)`. -/
def validStatPairs (obs model : List (Option ℚ)) : List (ℚ × ℚ) :=
  (obs.zip model).filterMap (fun p =>
    match p with
    | (some o, some m) => some (o, m)
    | _ => none)

/-- Code: `n` reported by `compute_stats`: the number of valid pairs. -/
def statsN (obs model : List ℚ) : Nat :=
  (validStatPairs (cleanSeries obs) (cleanSeries model)).length

/-- Code: `bias = np.mean(m - o)` over the valid pairs; `compute_stats` returns the
NaN record (`none`) when fewer than 2 pairs survive. -/
def statsBias (obs model : List ℚ) : Option ℚ :=
  let pairs := validStatPairs (cleanSeries obs) (cleanSeries model)
  if pairs.length < 2 then none
  else some ((pairs.map (fun p => p.2 - p.1)).sum / pairs.length)

/-- Counterexample to C6 as stated: differencing `obs = [0, 0]` against
`model = [500, 1]`, the index-0 entry has `|500| > 100` m yet is **not**
excluded — both pairs survive the filter and the bias averages over the
500 m value.  The code's only magnitude filter is `|v| > 1e6`. -/
theorem stats_100m_filter_counterexample :
    validStatPairs (cleanSeries [0, 0]) (cleanSeries [500, 1]) = [(0, 500), (0, 1)] ∧
    statsN [0, 0] [500, 1] = 2 ∧
    statsBias [0, 0] [500, 1] = some (501/2) ∧
    (100 : ℚ) < |(500 : ℚ)| := by
  refine ⟨?_, ?_, ?_, by norm_num⟩ <;>
    norm_num [statsN, statsBias, validStatPairs, cleanSeries, cleanElev,
      List.filterMap_cons]

/-- C6 amended. An index-aligned entry is excluded from the computed
difference and statistics exactly when either input at that index exceeds
`1e6` in magnitude (the fill-value replacement that becomes NaN); there is
no 100 m dry/bad-node magnitude filter. -/
theorem validStatPairs_spec : ∀ obs model : List ℚ,
    validStatPairs (cleanSeries obs) (cleanSeries model) =
      (obs.zip model).filter (fun p =>
        decide (|p.1| ≤ 1000000) && decide (|p.2| ≤ 1000000)) ∧
    statsN obs model =
      ((obs.zip model).filter (fun p =>
        decide (|p.1| ≤ 1000000) && decide (|p.2| ≤ 1000000))).length := by
  have key : ∀ obs model : List ℚ,
      validStatPairs (cleanSeries obs) (cleanSeries model) =
        (obs.zip model).filter (fun p =>
          decide (|p.1| ≤ 1000000) && decide (|p.2| ≤ 1000000)) := by
    intro obs
    induction obs with
    | nil => intro model; simp [validStatPairs, cleanSeries]
    | cons o obs ih =>
      intro model
      cases model with
      | nil => simp [validStatPairs, cleanSeries]
      | cons m model =>
        simp only [cleanSeries, List.map_cons, List.zip_cons_cons, validStatPairs,
          List.filterMap_cons, List.filter_cons] at *
        by_cases ho : 1000000 < |o|
        · have ho2 : ¬ |o| ≤ 1000000 := not_le.mpr ho
          simp only [cleanElev, if_pos ho]
          simp [ho2, ih model]
        · have ho2 : |o| ≤ 1000000 := not_lt.mp ho
          by_cases hm : 1000000 < |m|
          · have hm2 : ¬ |m| ≤ 1000000 := not_le.mpr hm
            simp only [cleanElev, if_neg ho, if_pos hm]
            simp [ho2, hm2, ih model]
          · have hm2 : |m| ≤ 1000000 := not_lt.mp hm
            simp only [cleanElev, if_neg ho, if_neg hm]
            simp [ho2, hm2, ih model]
  intro obs model
  exact ⟨key obs model, by simp [statsN, key obs model]⟩

/-! ## Nearest-node lookup
    From `find_nearest_node` in `offshore_timeseries/fort63_simple_timeseries.py`
    (an exact nearest-neighbour query on `(x, y)` in degree space via
    `cKDTree`) and the brute-force
    `np.argmin(np.sqrt((x - tlon)**2 + (y - tlat)**2))` scan in
    `STOFS_Fort_63_Timeseries/transect_timeseries_fort63.py`.  Distances are
    tracked squared: `√` is strictly monotone, so the first minimiser of the
    squared Euclidean degree distance is the first minimiser of the distance
    itself; the reported `distance_km = dist * 111.0` is represented through
    its square `distSq * 111²`. -/

/-- Squared Euclidean degree-space distance from the query to node `j`. -/
def nodeDistSq (x y : List ℚ) (qlon qlat : ℚ) (j : Nat) : ℚ :=
  (x.getD j 0 - qlon) ^ 2 + (y.getD j 0 - qlat) ^ 2

/-- First-minimum scan (`np.argmin` keeps the first occurrence; a strict
improvement is required to replace the running best). -/
def argminFrom : List ℚ → Nat → Nat → ℚ → Nat × ℚ
  | [], _, bi, bv => (bi, bv)
  | a :: l, i, bi, bv =>
    if a < bv then argminFrom l (i + 1) i a else argminFrom l (i + 1) bi bv

/-- Code: `find_nearest_node`: index of the nearest node and its squared degree
distance (`none` on an empty mesh). -/
def find_nearest_node (x y : List ℚ) (qlon qlat : ℚ) : Option (Nat × ℚ) :=
  match (List.range x.length).map (nodeDistSq x y qlon qlat) with
  | [] => none
  | d :: ds => some (argminFrom ds 1 0 d)

/-- Square of the reported `distance_km = dist * 111.0`. -/
def distanceKmSq (dSq : ℚ) : ℚ := dSq * 111 ^ 2

theorem argminFrom_spec : ∀ (l : List ℚ) (i bi : Nat) (bv : ℚ),
    (((argminFrom l i bi bv).1 = bi ∧ (argminFrom l i bi bv).2 = bv) ∨
      (∃ k, k < l.length ∧ (argminFrom l i bi bv).1 = i + k ∧
        (argminFrom l i bi bv).2 = l.getD k 0)) ∧
    (argminFrom l i bi bv).2 ≤ bv ∧
    (∀ k, k < l.length → (argminFrom l i bi bv).2 ≤ l.getD k 0) := by
  intro l
  induction l with
  | nil =>
    intro i bi bv
    exact ⟨Or.inl ⟨rfl, rfl⟩, le_refl bv, fun k hk => absurd hk (Nat.not_lt_zero k)⟩
  | cons a l ih =>
    intro i bi bv
    simp only [argminFrom]
    by_cases hcmp : a < bv
    · rw [if_pos hcmp]
      obtain ⟨hor, hle, hall⟩ := ih (i + 1) i a
      refine ⟨?_, le_of_lt (lt_of_le_of_lt hle hcmp), ?_⟩
      · rcases hor with ⟨h1, h2⟩ | ⟨k, hk, h1, h2⟩
        · exact Or.inr ⟨0, Nat.succ_pos _, by rw [h1, Nat.add_zero], h2⟩
        · exact Or.inr ⟨k + 1, Nat.succ_lt_succ hk,
            by rw [h1]; omega, by simpa using h2⟩
      · intro k hk
        cases k with
        | zero => simpa using hle
        | succ k => simpa using hall k (Nat.lt_of_succ_lt_succ hk)
    · rw [if_neg hcmp]
      obtain ⟨hor, hle, hall⟩ := ih (i + 1) bi bv
      refine ⟨?_, hle, ?_⟩
      · rcases hor with ⟨h1, h2⟩ | ⟨k, hk, h1, h2⟩
        · exact Or.inl ⟨h1, h2⟩
        · exact Or.inr ⟨k + 1, Nat.succ_lt_succ hk,
            by rw [h1]; omega, by simpa using h2⟩
      · intro k hk
        cases k with
        | zero => simpa using le_trans hle (not_lt.mp hcmp)
        | succ k => simpa using hall k (Nat.lt_of_succ_lt_succ hk)

theorem distList_getD {x y : List ℚ} {qlon qlat : ℚ} {j : Nat} (hj : j < x.length) :
    ((List.range x.length).map (nodeDistSq x y qlon qlat)).getD j 0 =
      nodeDistSq x y qlon qlat j := by
  have hjlen : j < ((List.range x.length).map (nodeDistSq x y qlon qlat)).length := by
    simpa using hj
  rw [List.getD_eq_getElem _ _ hjlen]
  simp

/-- C7. On a non-empty mesh, `find_nearest_node` returns a node index
whose Euclidean degree-space distance to the query is minimal over all
nodes, reports (the square of) that distance times exactly `111.0` as the
kilometre distance, and for a query coincident with a mesh node returns a
node at distance 0 whose coordinates equal the query, with reported
kilometre distance 0. -/
theorem find_nearest_node_spec (x y : List ℚ) (qlon qlat : ℚ) (hne : x ≠ []) :
    ∃ i dSq, find_nearest_node x y qlon qlat = some (i, dSq) ∧
      i < x.length ∧
      dSq = nodeDistSq x y qlon qlat i ∧
      (∀ j, j < x.length → dSq ≤ nodeDistSq x y qlon qlat j) ∧
      distanceKmSq dSq = dSq * 111 ^ 2 ∧
      (∀ j, j < x.length → x.getD j 0 = qlon → y.getD j 0 = qlat →
        dSq = 0 ∧ x.getD i 0 = qlon ∧ y.getD i 0 = qlat ∧ distanceKmSq dSq = 0) := by
  have hlen : x.length ≠ 0 := fun h => hne (List.length_eq_zero.mp h)
  cases hD : (List.range x.length).map (nodeDistSq x y qlon qlat) with
  | nil =>
    exfalso
    apply hlen
    have := congrArg List.length hD
    simpa using this
  | cons d ds =>
    have hDlen : ds.length + 1 = x.length := by
      have := congrArg List.length hD
      simpa [Nat.add_comm] using this.symm
    obtain ⟨hor, hled, hall⟩ := argminFrom_spec ds 1 0 d
    set res := argminFrom ds 1 0 d with hres
    have hfind : find_nearest_node x y qlon qlat = some (res.1, res.2) := by
      simp only [find_nearest_node, hD]
    have hd0 : d = nodeDistSq x y qlon qlat 0 := by
      have h0 : ((List.range x.length).map (nodeDistSq x y qlon qlat)).getD 0 0 =
          nodeDistSq x y qlon qlat 0 := distList_getD (Nat.pos_of_ne_zero hlen)
      rw [hD] at h0
      simpa using h0
    have hdk : ∀ k, k < ds.length → ds.getD k 0 = nodeDistSq x y qlon qlat (k + 1) := by
      intro k hk
      have hk2 : k + 1 < x.length := by omega
      have h0 := @distList_getD x y qlon qlat (k + 1) hk2
      rw [hD] at h0
      simpa using h0
    have hi_lt : res.1 < x.length := by
      rcases hor with ⟨h1, -⟩ | ⟨k, hk, h1, -⟩
      · rw [h1]; exact Nat.pos_of_ne_zero hlen
      · rw [h1]; omega
    have hval : res.2 = nodeDistSq x y qlon qlat res.1 := by
      rcases hor with ⟨h1, h2⟩ | ⟨k, hk, h1, h2⟩
      · rw [h1, h2, hd0]
      · rw [h1, h2, hdk k hk]; congr 1; omega
    have hmin : ∀ j, j < x.length → res.2 ≤ nodeDistSq x y qlon qlat j := by
      intro j hj
      cases j with
      | zero => rw [← hd0]; exact hled
      | succ k =>
        have hk : k < ds.length := by omega
        rw [← hdk k hk]
        exact hall k hk
  -- coincident query
    refine ⟨res.1, res.2, hfind, hi_lt, hval, hmin, rfl, ?_⟩
    intro j hj hxj hyj
    have hjz : nodeDistSq x y qlon qlat j = 0 := by
      simp only [nodeDistSq]
      rw [hxj, hyj]
      simp
    have hz : res.2 = 0 := by
      have hle2 := hmin j hj
      rw [hjz] at hle2
      have hge : 0 ≤ res.2 := by
        rw [hval]
        exact add_nonneg (sq_nonneg _) (sq_nonneg _)
      exact le_antisymm hle2 hge
    have hsum : (x.getD res.1 0 - qlon) ^ 2 + (y.getD res.1 0 - qlat) ^ 2 = 0 := by
      rw [← nodeDistSq, ← hval, hz]
    have hx0 : (x.getD res.1 0 - qlon) ^ 2 = 0 ∧ (y.getD res.1 0 - qlat) ^ 2 = 0 :=
      (add_eq_zero_iff_of_nonneg (sq_nonneg _) (sq_nonneg _)).mp hsum
    refine ⟨hz, ?_, ?_, by rw [hz, distanceKmSq]; ring⟩
    · have := pow_eq_zero_iff (by norm_num : (2 : ℕ) ≠ 0) |>.mp hx0.1
      linarith [this]
    · have := pow_eq_zero_iff (by norm_num : (2 : ℕ) ≠ 0) |>.mp hx0.2
      linarith [this]

theorem find_nearest_node_spec_witness :
    ([(10 : ℚ), 3] ≠ []) ∧
    (∃ i dSq, find_nearest_node [(10 : ℚ), 3] [(20 : ℚ), 4] 3 4 = some (i, dSq) ∧
      i < [(10 : ℚ), 3].length ∧
      dSq = nodeDistSq [(10 : ℚ), 3] [(20 : ℚ), 4] 3 4 i ∧
      (∀ j, j < [(10 : ℚ), 3].length →
        dSq ≤ nodeDistSq [(10 : ℚ), 3] [(20 : ℚ), 4] 3 4 j) ∧
      distanceKmSq dSq = dSq * 111 ^ 2 ∧
      (∀ j, j < [(10 : ℚ), 3].length →
        List.getD [(10 : ℚ), 3] j 0 = 3 → List.getD [(20 : ℚ), 4] j 0 = 4 →
        dSq = 0 ∧ List.getD [(10 : ℚ), 3] i 0 = 3 ∧
          List.getD [(20 : ℚ), 4] i 0 = 4 ∧ distanceKmSq dSq = 0)) :=
  ⟨by simp, find_nearest_node_spec [10, 3] [20, 4] 3 4 (by simp)⟩

/-! ## Station matching by name
    From `create_side_by_side_plot` in
    `timeseries_plots/compare_side_by_side.py` — a linear scan over the
    second file's stations for the first one whose name string equals the
    target, `found_idx is None` → warning and `return False` while the
    caller's loop over stations continues — and from `plot_overlay` in
    `ADCIRC-PLOT/FORT61/extract_fort61.py`
    (`station_name_list.index(station_name)`; `ValueError` → warning and
    `continue`). -/

/-- First index in `names` whose entry equals `target` (the Python scan
`for i in range(n): if name_i == target: found_idx = i; break`). -/
def findStationByName (names : List String) (target : String) : Option Nat :=
  names.findIdx? (fun s => s == target)

/-- The caller's loop: each station of the first file is looked up by name in
the second file; unmatched stations are skipped and the loop continues. -/
def matchStations (names1 names2 : List String) : List (Nat × Nat) :=
  (List.range names1.length).filterMap (fun i =>
    (findStationByName names2 (names1.getD i "")).map (fun j => (i, j)))

/-- C9. Stations are matched across files exactly by name-string
equality, never by index: a successful lookup returns the first index of the
second file holding an equal name; an absent name yields `none`; the loop
pairs station `i` with `j` iff the name lookup succeeds; and when a station's
name has no match it contributes no pair while every other station whose
name does occur in the second file is still processed (skip with warning,
no fatal error). -/
theorem station_match_by_name (names1 names2 : List String) :
    (∀ (t : String) (j : Nat), findStationByName names2 t = some j ↔
      ∃ h : j < names2.length, names2.get ⟨j, h⟩ = t ∧
        ∀ k (hk : k < j), names2.get ⟨k, Nat.lt_trans hk h⟩ ≠ t) ∧
    (∀ t : String, findStationByName names2 t = none ↔ t ∉ names2) ∧
    (∀ i j : Nat, (i, j) ∈ matchStations names1 names2 ↔
      i < names1.length ∧ findStationByName names2 (names1.getD i "") = some j) ∧
    (∀ i : Nat, i < names1.length → names1.getD i "" ∉ names2 →
      (∀ j : Nat, (i, j) ∉ matchStations names1 names2) ∧
      (∀ k : Nat, k < names1.length → names1.getD k "" ∈ names2 →
        ∃ j : Nat, (k, j) ∈ matchStations names1 names2)) := by
  have hsome : ∀ (t : String) (j : Nat), findStationByName names2 t = some j ↔
      ∃ h : j < names2.length, names2.get ⟨j, h⟩ = t ∧
        ∀ k (hk : k < j), names2.get ⟨k, Nat.lt_trans hk h⟩ ≠ t := by
    intro t j
    rw [findStationByName, List.findIdx?_eq_some_iff_getElem]
    constructor
    · rintro ⟨h, h1, h2⟩
      exact ⟨h, by simpa using h1, fun k hk => by simpa using h2 k hk⟩
    · rintro ⟨h, h1, h2⟩
      exact ⟨h, by simpa using h1, fun k hk => by simpa using h2 k hk⟩
  have hnone : ∀ t : String, findStationByName names2 t = none ↔ t ∉ names2 := by
    intro t
    rw [findStationByName, List.findIdx?_eq_none_iff]
    constructor
    · intro h ht
      have := h t ht
      simp at this
    · intro ht s hs
      simp only [beq_eq_false_iff_ne, ne_eq]
      exact fun hst => ht (hst ▸ hs)
  have hmem : ∀ i j : Nat, (i, j) ∈ matchStations names1 names2 ↔
      i < names1.length ∧ findStationByName names2 (names1.getD i "") = some j := by
    intro i j
    simp only [matchStations, List.mem_filterMap, List.mem_range, Option.map_eq_some',
      Prod.mk.injEq]
    constructor
    · rintro ⟨a, ha, j2, hj2, rfl, rfl⟩
      exact ⟨ha, hj2⟩
    · rintro ⟨hi, hj⟩
      exact ⟨i, hi, j, hj, rfl, rfl⟩
  refine ⟨hsome, hnone, hmem, ?_⟩
  intro i hi hnomatch
  constructor
  · intro j hj
    obtain ⟨-, hsome2⟩ := (hmem i j).mp hj
    rw [(hnone _).mpr hnomatch] at hsome2
    exact Option.noConfusion hsome2
  · intro k hk hkmem
    have : findStationByName names2 (names1.getD k "") ≠ none := fun h =>
      ((hnone _).mp h) hkmem
    obtain ⟨j, hj⟩ := Option.ne_none_iff_exists'.mp this
    exact ⟨j, (hmem k j).mpr ⟨hk, hj⟩⟩

/-- Station names of the first file in a concrete run. -/
def namesF1 : List String := ["Boston", "Duck", "Charleston"]

/-- Station names of the second file, reordered and missing `Duck`. -/
def namesF2 : List String := ["Charleston", "Boston"]

theorem station_match_by_name_witness :
    ((1 : Nat) < namesF1.length ∧ namesF1.getD 1 "" ∉ namesF2) ∧
      ((∀ j : Nat, (1, j) ∉ matchStations namesF1 namesF2) ∧
       (∀ k : Nat, k < namesF1.length → namesF1.getD k "" ∈ namesF2 →
         ∃ j : Nat, (k, j) ∈ matchStations namesF1 namesF2)) :=
  ⟨⟨by decide, by decide⟩,
   (station_match_by_name namesF1 namesF2).2.2.2 1 (by decide) (by decide)⟩

/-! ## Parallel frame generation and filename sorting
    From `generate_single_frame` and `generate_animation` in
    `2D-Global-Points-CWL/animate_cwl_diff.py`: each worker writes
    `frame_{frame_idx:04d}.png`, collected paths are sorted
    (`frame_files.sort()`) before assembly.  Filenames are modelled as their
    code-point sequences (`List Nat`); Python string comparison is
    code-point-lexicographic. -/

/-- Python's lexicographic-by-code-point string order (`s1 <= s2`). -/
def lexLe : List Nat → List Nat → Bool
  | [], _ => true
  | _ :: _, [] => false
  | a :: as, b :: bs => if a < b then true else if b < a then false else lexLe as bs

/-- The order relation used by `sorted`/`list.sort` on the path strings. -/
def lexR (a b : List Nat) : Prop := lexLe a b = true

instance : DecidableRel lexR := fun a b => inferInstanceAs (Decidable (lexLe a b = true))

theorem lexLe_cons_iff {a b : Nat} {as bs : List Nat} :
    lexLe (a :: as) (b :: bs) = true ↔ a < b ∨ (a = b ∧ lexLe as bs = true) := by
  simp only [lexLe]
  by_cases h1 : a < b
  · simp [h1]
  · by_cases h2 : b < a
    · simp only [if_neg h1, if_pos h2, Bool.false_eq_true, false_iff, not_or, not_and]
      omega
    · have hab : a = b := Nat.le_antisymm (Nat.le_of_not_lt h2) (Nat.le_of_not_lt h1)
      simp [h1, h2, hab]

instance : IsTotal (List Nat) lexR := by
  constructor
  intro a
  induction a with
  | nil => intro b; left; rfl
  | cons x as ih =>
    intro b
    cases b with
    | nil => right; rfl
    | cons y bs =>
      rcases Nat.lt_trichotomy x y with h | h | h
      · left; exact lexLe_cons_iff.mpr (Or.inl h)
      · subst h
        rcases ih bs with h2 | h2
        · left; exact lexLe_cons_iff.mpr (Or.inr ⟨rfl, h2⟩)
        · right; exact lexLe_cons_iff.mpr (Or.inr ⟨rfl, h2⟩)
      · right; exact lexLe_cons_iff.mpr (Or.inl h)

instance : IsTrans (List Nat) lexR := by
  constructor
  intro a
  induction a with
  | nil => intro b c _ _; rfl
  | cons x as ih =>
    intro b c hab hbc
    cases b with
    | nil => exact absurd hab (by simp [lexR, lexLe])
    | cons y bs =>
      cases c with
      | nil => exact absurd hbc (by simp [lexR, lexLe])
      | cons z cs =>
        rcases lexLe_cons_iff.mp hab with h1 | ⟨h1, h1r⟩ <;>
          rcases lexLe_cons_iff.mp hbc with h2 | ⟨h2, h2r⟩
        · exact lexLe_cons_iff.mpr (Or.inl (Nat.lt_trans h1 h2))
        · exact lexLe_cons_iff.mpr (Or.inl (h2 ▸ h1))
        · exact lexLe_cons_iff.mpr (Or.inl (h1 ▸ h2))
        · exact lexLe_cons_iff.mpr (Or.inr ⟨h1.trans h2, ih bs cs h1r h2r⟩)

instance : IsAntisymm (List Nat) lexR := by
  constructor
  intro a
  induction a with
  | nil =>
    intro b _ hba
    cases b with
    | nil => rfl
    | cons y bs => exact absurd hba (by simp [lexR, lexLe])
  | cons x as ih =>
    intro b hab hba
    cases b with
    | nil => exact absurd hab (by simp [lexR, lexLe])
    | cons y bs =>
      rcases lexLe_cons_iff.mp hab with h1 | ⟨h1, h1r⟩ <;>
        rcases lexLe_cons_iff.mp hba with h2 | ⟨h2, h2r⟩
      · omega
      · omega
      · omega
      · rw [h1, ih bs h1r h2r]

theorem lexLe_append_left : ∀ (p u v : List Nat),
    lexLe (p ++ u) (p ++ v) = lexLe u v := by
  intro p
  induction p with
  | nil => intro u v; rfl
  | cons c p ih =>
    intro u v
    simp only [List.cons_append, lexLe, if_neg (Nat.lt_irrefl c)]
    exact ih u v

/-- Decimal digit characters (code points) of `n`, most significant first,
accumulated; the fuel argument only bounds recursion depth (one unit per
digit) and is plentiful at the call site. -/
def decDigitsCore : Nat → Nat → List Nat → List Nat
  | 0, _, acc => acc
  | fuel + 1, n, acc =>
    if n < 10 then (48 + n % 10) :: acc
    else decDigitsCore fuel (n / 10) ((48 + n % 10) :: acc)

/-- Decimal representation of `n` as code points (`str(n)`). -/
def decDigits (n : Nat) : List Nat := decDigitsCore (n + 1) n []

/-- Numeric value of a most-significant-first digit-character list. -/
def valD : List Nat → Nat
  | [] => 0
  | c :: cs => (c - 48) * 10 ^ cs.length + valD cs

theorem valD_append_digit (ds : List Nat) (c : Nat) :
    valD (ds ++ [c]) = valD ds * 10 + (c - 48) := by
  induction ds with
  | nil => simp [valD]
  | cons a ds ih =>
    simp only [List.cons_append, valD, List.append_eq, ih, List.length_append,
      List.length_cons, List.length_nil]
    ring

theorem valD_lt (ds : List Nat) (hd : ∀ c ∈ ds, 48 ≤ c ∧ c ≤ 57) :
    valD ds < 10 ^ ds.length := by
  induction ds with
  | nil => simp [valD]
  | cons c cs ih =>
    have hc : c - 48 ≤ 9 := by
      have := hd c (List.mem_cons_self c cs)
      omega
    have hcs := ih (fun c hc => hd c (List.mem_cons_of_mem _ hc))
    have hP : 0 < 10 ^ cs.length := Nat.pos_pow_of_pos _ (by norm_num)
    have hmul : (c - 48) * 10 ^ cs.length ≤ 9 * 10 ^ cs.length :=
      Nat.mul_le_mul_right _ hc
    simp only [valD, List.length_cons, pow_succ]
    omega

theorem decDigitsCore_spec : ∀ (fuel n : Nat), 1 ≤ fuel → n < 10 ^ fuel →
    ∀ acc : List Nat, ∃ ds : List Nat,
      decDigitsCore fuel n acc = ds ++ acc ∧
      ds ≠ [] ∧
      (∀ c ∈ ds, 48 ≤ c ∧ c ≤ 57) ∧
      valD ds = n ∧
      (∀ k, 1 ≤ k → n < 10 ^ k → ds.length ≤ k) := by
  intro fuel
  induction fuel with
  | zero => intro n h1 _ _; omega
  | succ fuel ih =>
    intro n _ hn acc
    by_cases hn10 : n < 10
    · refine ⟨[48 + n % 10], ?_, by simp, ?_, ?_, ?_⟩
      · simp [decDigitsCore, hn10]
      · intro c hc
        simp only [List.mem_singleton] at hc
        omega
      · simp only [valD, List.length_nil, pow_zero, mul_one]
        omega
      · intro k hk _
        simpa using hk
    · have hfuel1 : 1 ≤ fuel := by
        by_contra hf
        have : fuel = 0 := by omega
        subst this
        simp at hn
        omega
      have hdiv : n / 10 < 10 ^ fuel := by
        rw [Nat.div_lt_iff_lt_mul (by norm_num)]
        calc n < 10 ^ (fuel + 1) := hn
          _ = 10 ^ fuel * 10 := by rw [pow_succ]
      obtain ⟨ds, hds, hne, hdig, hval, hlen⟩ :=
        ih (n / 10) hfuel1 hdiv ((48 + n % 10) :: acc)
      refine ⟨ds ++ [48 + n % 10], ?_, by simp, ?_, ?_, ?_⟩
      · rw [decDigitsCore, if_neg hn10, hds, List.append_assoc]
        rfl
      · intro c hc
        rcases List.mem_append.mp hc with hc | hc
        · exact hdig c hc
        · simp only [List.mem_singleton] at hc
          have : n % 10 < 10 := Nat.mod_lt _ (by norm_num)
          omega
      · rw [valD_append_digit, hval]
        omega
      · intro k hk hnk
        have hk2 : 2 ≤ k := by
          by_contra h2
          have : k = 1 := by omega
          subst this
          simp at hnk
          omega
        have hd2 : n / 10 < 10 ^ (k - 1) := by
          rw [Nat.div_lt_iff_lt_mul (by norm_num)]
          calc n < 10 ^ k := hnk
            _ = 10 ^ (k - 1) * 10 := by
              rw [← pow_succ]
              congr 1
              omega
        have := hlen (k - 1) (by omega) hd2
        simp only [List.length_append, List.length_cons, List.length_nil]
        omega

theorem decDigits_spec (n : Nat) :
    ∃ ds : List Nat, decDigits n = ds ∧ ds ≠ [] ∧
      (∀ c ∈ ds, 48 ≤ c ∧ c ≤ 57) ∧ valD ds = n ∧
      (∀ k, 1 ≤ k → n < 10 ^ k → ds.length ≤ k) := by
  have hn : n < 10 ^ (n + 1) := by
    calc n < 10 ^ n := Nat.lt_pow_self (by norm_num) n
      _ ≤ 10 ^ (n + 1) := Nat.pow_le_pow_right (by norm_num) (Nat.le_succ n)
  obtain ⟨ds, hds, h⟩ := decDigitsCore_spec (n + 1) n (by omega) hn []
  exact ⟨ds, by rw [decDigits, hds, List.append_nil], h⟩

/-- Code: `f"{i:04d}"`: the decimal representation left-padded with `'0'` (code
point 48) to at least four characters. -/
def pad4 (i : Nat) : List Nat :=
  List.replicate (4 - (decDigits i).length) 48 ++ decDigits i

/-- Code points of `"frame_"`. -/
def framePre : List Nat := [102, 114, 97, 109, 101, 95]

/-- Code points of `".png"`. -/
def frameSuf : List Nat := [46, 112, 110, 103]

/-- The output path written by `generate_single_frame` for frame `i`
(the shared directory prefix is common to all frames and folded into
`framePre`). -/
def frameFileName (i : Nat) : List Nat := framePre ++ (pad4 i ++ frameSuf)

/-- The file sequence a sequential run over frames `0, …, N-1` produces. -/
def sequentialFrames (N : Nat) : List (List Nat) :=
  (List.range N).map frameFileName

theorem pad4_spec (i : Nat) :
    (∀ c ∈ pad4 i, 48 ≤ c ∧ c ≤ 57) ∧ valD (pad4 i) = i ∧
      (i ≤ 9999 → (pad4 i).length = 4) := by
  obtain ⟨ds, hds, -, hdig, hval, hlen⟩ := decDigits_spec i
  have hzeros : ∀ k, (∀ c ∈ List.replicate k 48, 48 ≤ c ∧ c ≤ 57) ∧
      ∀ t, valD (List.replicate k 48 ++ t) = valD t := by
    intro k
    induction k with
    | zero => exact ⟨by simp, fun t => by simp⟩
    | succ k ih =>
      refine ⟨?_, fun t => ?_⟩
      · intro c hc
        rw [List.mem_replicate] at hc
        omega
      · simp only [List.replicate_succ, List.cons_append, valD, List.append_eq, ih.2 t]
        omega
  refine ⟨?_, ?_, ?_⟩
  · intro c hc
    rw [pad4, hds] at hc
    rcases List.mem_append.mp hc with hc | hc
    · exact (hzeros _).1 c hc
    · exact hdig c hc
  · rw [pad4, hds, (hzeros _).2, hval]
  · intro hi
    have h4 : ds.length ≤ 4 := hlen 4 (by omega) (by omega)
    rw [pad4, hds]
    simp only [List.length_append, List.length_replicate]
    omega

/-- Equal-length digit strings compare lexicographically as their values,
and a strict comparison at the digit block decides the comparison of any
extensions. -/
theorem lexLe_append_of_valD_lt : ∀ (as bs s t : List Nat),
    as.length = bs.length →
    (∀ c ∈ as, 48 ≤ c ∧ c ≤ 57) → (∀ c ∈ bs, 48 ≤ c ∧ c ≤ 57) →
    valD as < valD bs →
    lexLe (as ++ s) (bs ++ t) = true := by
  intro as
  induction as with
  | nil =>
    intro bs s t hlen _ _ hval
    cases bs with
    | nil => exact absurd hval (by simp [valD])
    | cons b bs => simp at hlen
  | cons a as ih =>
    intro bs s t hlen hda hdb hval
    cases bs with
    | nil => simp at hlen
    | cons b bs =>
      simp only [List.length_cons, Nat.succ.injEq] at hlen
      have hba : 48 ≤ a ∧ a ≤ 57 := hda a (List.mem_cons_self a as)
      have hbb : 48 ≤ b ∧ b ≤ 57 := hdb b (List.mem_cons_self b bs)
      have hPas : valD as < 10 ^ as.length :=
        valD_lt as (fun c hc => hda c (List.mem_cons_of_mem _ hc))
      have hPbs : valD bs < 10 ^ bs.length :=
        valD_lt bs (fun c hc => hdb c (List.mem_cons_of_mem _ hc))
      rcases Nat.lt_trichotomy a b with h | h | h
      · simp only [List.cons_append, lexLe, if_pos h]
      · subst h
        have hv2 : valD as < valD bs := by
          simp only [valD, hlen] at hval
          omega
        simp only [List.cons_append, lexLe, if_neg (Nat.lt_irrefl a)]
        exact ih bs s t hlen (fun c hc => hda c (List.mem_cons_of_mem _ hc))
          (fun c hc => hdb c (List.mem_cons_of_mem _ hc)) hv2
      · exfalso
        simp only [valD, hlen] at hval
        have hstep : (b - 48 + 1) * 10 ^ bs.length ≤ (a - 48) * 10 ^ bs.length :=
          Nat.mul_le_mul_right _ (by omega)
        rw [Nat.succ_mul] at hstep
        omega

theorem frameFileName_lexR_of_lt {i j : Nat} (hij : i < j) (hj : j ≤ 9999) :
    lexR (frameFileName i) (frameFileName j) := by
  obtain ⟨hdi, hvi, hleni⟩ := pad4_spec i
  obtain ⟨hdj, hvj, hlenj⟩ := pad4_spec j
  show lexLe (frameFileName i) (frameFileName j) = true
  rw [frameFileName, frameFileName, lexLe_append_left]
  exact lexLe_append_of_valD_lt (pad4 i) (pad4 j) frameSuf frameSuf
    (by rw [hleni (by omega), hlenj hj]) hdi hdj (by rw [hvi, hvj]; exact hij)

theorem sequentialFrames_sorted {N : Nat} (hN : N ≤ 10000) :
    List.Sorted lexR (sequentialFrames N) := by
  rw [sequentialFrames, List.Sorted, List.pairwise_map]
  refine (List.pairwise_lt_range N).imp_of_mem ?_
  intro a b ha hb hab
  exact frameFileName_lexR_of_lt hab (by
    have := List.mem_range.mp hb
    omega)

/-- Counterexample to C8 as stated: with `N = 10001` frames and in-order
(identity) completion, sorting the collected paths does **not** reproduce the
sequential sequence — index 10000 overflows the `04d` zero-padding, so
`frame_10000.png` sorts between `frame_1000.png` and `frame_1001.png`
instead of last. -/
theorem parallel_frames_sort_counterexample :
    List.insertionSort lexR (sequentialFrames 10001) ≠ sequentialFrames 10001 := by
  intro h
  have hs : List.Sorted lexR (sequentialFrames 10001) := by
    rw [← h]
    exact List.sorted_insertionSort lexR _
  rw [sequentialFrames, List.Sorted, List.pairwise_map, List.pairwise_iff_getElem] at hs
  have h1 : (9999 : Nat) < (List.range 10001).length := by simp
  have h2 : (10000 : Nat) < (List.range 10001).length := by simp
  have hcon := hs 9999 10000 h1 h2 (by norm_num)
  rw [List.getElem_range, List.getElem_range] at hcon
  exact absurd hcon (by decide)

/-- C8 amended. For every frame count `N ≤ 10000` — so that every
frame index fits the common zero-padded width 4 — and every completion
order of the parallel workers, sorting the collected output paths yields
exactly the ordered path sequence of a sequential run over frames
`0, 1, …, N-1`. -/
theorem parallel_frames_sort_eq (N : Nat) (hN : N ≤ 10000)
    (collected : List (List Nat)) (hperm : collected.Perm (sequentialFrames N)) :
    List.insertionSort lexR collected = sequentialFrames N :=
  List.eq_of_perm_of_sorted
    ((List.perm_insertionSort lexR collected).trans hperm)
    (List.sorted_insertionSort lexR collected)
    (sequentialFrames_sorted hN)

theorem parallel_frames_sort_eq_witness :
    ((3 : Nat) ≤ 10000 ∧
      List.Perm [frameFileName 2, frameFileName 0, frameFileName 1]
        (sequentialFrames 3)) ∧
    List.insertionSort lexR [frameFileName 2, frameFileName 0, frameFileName 1] =
      sequentialFrames 3 :=
  ⟨⟨by norm_num, by decide⟩,
   parallel_frames_sort_eq 3 (by norm_num) _ (by decide)⟩

end MyScripts
